import Mathlib

/-!
Verification development for the Stellar-Batch-Pay repository.

The definitions below are a shallow embedding of the TypeScript sources:
`lib/stellar/batcher.ts` (createBatches, parseAsset, getBatchSummary),
`lib/stellar/stellar-service.ts` (submitBatch, createPaymentBatches and the
per-batch submission loop), and `lib/stellar/parser.ts` (parseCSV).
JavaScript numbers that hold amounts are modelled exactly as IEEE-754
binary64 values over an exact fraction type.  The validator module
(`lib/stellar/validator.ts`) is not present in the sources; where it is
needed it is modelled from the specification and marked as such.
-/

deriving instance DecidableEq for Except

namespace BatchPay

/-- Data model of `types.ts` as used by the batcher: one payment instruction
with recipient address, decimal amount kept as text, and an asset string. -/
structure PaymentInstruction where
  address : String
  amount : String
  asset : String
deriving DecidableEq, Repr

/-- A batch produced by `createBatches` in `batcher.ts`: a transaction index
and the ordered payments of the batch. -/
structure Batch where
  transactionIndex : Int
  payments : List PaymentInstruction
deriving DecidableEq, Repr

/-- Loop body of `createBatches` (batcher.ts lines 19-45): walk the
instructions, push each one onto `currentBatch`, close the batch as soon as
`currentBatch.length >= maxOperationsPerTransaction`, and flush a non-empty
remainder at the end.  `batches` is the accumulator array of the source. -/
def createBatchesGo (maxOperationsPerTransaction : Int) :
    List PaymentInstruction → List Batch → List PaymentInstruction → Int → List Batch
  | [], batches, currentBatch, transactionIndex =>
      batches ++
        (if currentBatch.isEmpty then []
         else [{ transactionIndex := transactionIndex, payments := currentBatch }])
  | instruction :: rest, batches, currentBatch, transactionIndex =>
      let currentBatch' := currentBatch ++ [instruction]
      if (currentBatch'.length : Int) ≥ maxOperationsPerTransaction then
        createBatchesGo maxOperationsPerTransaction rest
          (batches ++ [{ transactionIndex := transactionIndex, payments := currentBatch' }])
          [] (transactionIndex + 1)
      else
        createBatchesGo maxOperationsPerTransaction rest batches currentBatch' transactionIndex

/-- `createBatches` of `batcher.ts`: split payment instructions into batches
bounded by `maxOperationsPerTransaction` (a JavaScript number, embedded as an
integer). -/
def createBatches (instructions : List PaymentInstruction)
    (maxOperationsPerTransaction : Int) : List Batch :=
  createBatchesGo maxOperationsPerTransaction instructions [] [] 0

/-- A syntactically well-formed sample recipient address (ledger address
format: 56 base-32 characters starting with G). -/
def addressA : String := "GAAAAAAAAAAAAAAAAAAAAAAAAAAAAAAAAAAAAAAAAAAAAAAAAAAAAAAA"

/-- A second sample recipient address, distinct from `addressA`. -/
def addressB : String := "GBBBBBBBBBBBBBBBBBBBBBBBBBBBBBBBBBBBBBBBBBBBBBBBBBBBBBBB"

/-- A third sample recipient address, distinct from the other two. -/
def addressC : String := "GCCCCCCCCCCCCCCCCCCCCCCCCCCCCCCCCCCCCCCCCCCCCCCCCCCCCCCC"

/-- Sample payment instruction used as concrete input in witnesses. -/
def sampleInstructionA : PaymentInstruction :=
  { address := addressA, amount := "10.5", asset := "XLM" }

/-- Second sample payment instruction. -/
def sampleInstructionB : PaymentInstruction :=
  { address := addressB, amount := "20.25", asset := "XLM" }

/-- Third sample payment instruction. -/
def sampleInstructionC : PaymentInstruction :=
  { address := addressC, amount := "100", asset := "XLM" }

/-- A three-element sample instruction list used as concrete witness input. -/
def sampleInstructions : List PaymentInstruction :=
  [sampleInstructionA, sampleInstructionB, sampleInstructionC]

/-- Split a character list at every occurrence of `sep`, keeping empty
pieces, as JavaScript's `String.prototype.split` does with a one-character
separator: `"a::".split(':')` gives `["a","",""]` and `"".split(':')` gives
`[""]`. -/
def charSplit (sep : Char) : List Char → List (List Char)
  | [] => [[]]
  | c :: rest =>
      let r := charSplit sep rest
      if c = sep then [] :: r
      else
        match r with
        | [] => [[c]]
        | h :: t => (c :: h) :: t

/-- Strip leading and trailing whitespace, as JavaScript's `trim` does on
the ASCII whitespace that occurs in the repository's inputs. -/
def charTrim (l : List Char) : List Char :=
  ((l.dropWhile Char.isWhitespace).reverse.dropWhile Char.isWhitespace).reverse

/-- Numeric value of a decimal digit character. -/
def digitVal (c : Char) : Nat := c.toNat - '0'.toNat

/-- Value of a string of decimal digits (most significant first). -/
def digitsVal (l : List Char) : Nat := l.foldl (fun acc c => 10 * acc + digitVal c) 0

/-- An exact fraction with positive denominator, used to embed JavaScript
numbers (IEEE-754 binary64) and exact decimal values.  Kept unreduced so
that every operation is plain integer arithmetic. -/
structure Frac where
  num : Int
  den : Int
deriving DecidableEq, Repr

/-- Exact value of an unsigned decimal literal `digits[.digits]`, the form
taken by the repository's amount strings. -/
def parseUnsignedDecimal (l : List Char) : Option Frac :=
  let intPart := l.takeWhile Char.isDigit
  let rest := l.dropWhile Char.isDigit
  match rest with
  | [] => if intPart.isEmpty then none else some ⟨digitsVal intPart, 1⟩
  | '.' :: frac =>
      if frac.all Char.isDigit && (!intPart.isEmpty || !frac.isEmpty) then
        some ⟨(digitsVal intPart : Int) * 10 ^ frac.length + digitsVal frac,
              (10 : Int) ^ frac.length⟩
      else none
  | _ => none

/-- Exact value of a decimal literal with optional sign.  `none` models the
inputs on which JavaScript's `parseFloat` yields NaN; the plain decimal
forms are the only ones produced by the repository's parsers and examples. -/
def parseDecimal (s : String) : Option Frac :=
  match s.toList with
  | '-' :: rest => (parseUnsignedDecimal rest).map (fun f => ⟨-f.num, f.den⟩)
  | '+' :: rest => parseUnsignedDecimal rest
  | l => parseUnsignedDecimal l

/-- Exact addition of fractions. -/
def Frac.add (a b : Frac) : Frac :=
  ⟨a.num * b.den + b.num * a.den, a.den * b.den⟩

/-- Reduce a fraction to lowest terms (canonical for positive denominators,
the only ones constructed here). -/
def Frac.norm (f : Frac) : Frac :=
  let g : Int := (Int.gcd f.num f.den : Int)
  if g = 0 then ⟨0, 1⟩ else ⟨f.num / g, f.den / g⟩

/-- The rational value of a fraction. -/
def Frac.toRat (f : Frac) : ℚ := (f.num : ℚ) / (f.den : ℚ)

/-- Round the positive rational `n / d` to an integer, ties to even —
the rounding used at the last place of IEEE-754 binary64 arithmetic. -/
def rnEvenPos (n d : Int) : Int :=
  let q := n / d
  let r := n - q * d
  if 2 * r < d then q
  else if d < 2 * r then q + 1
  else if q % 2 = 0 then q else q + 1

/-- Binary exponent of the positive rational `n / d`: the unique `e` with
`2 ^ e ≤ n / d < 2 ^ (e + 1)`, found by doubling the smaller side.  The
fuel covers the whole binary64 exponent range. -/
def scaleLoop : Nat → Int → Int → Int → Int
  | 0, _, _, e => e
  | fuel + 1, n, d, e =>
      if n < d then scaleLoop fuel (2 * n) d (e - 1)
      else if 2 * d ≤ n then scaleLoop fuel n (2 * d) (e + 1)
      else e

/-- Round the positive rational `n / d` to the nearest IEEE-754 binary64
value (53 significant bits, ties to even), returned as an exact fraction.
Valid on the normal range, which covers every value in this development. -/
def roundPositive (n d : Int) : Frac :=
  let e := scaleLoop 4400 n d 0
  let s := 52 - e
  let nd : Int × Int := if 0 ≤ s then (n * 2 ^ s.toNat, d) else (n, d * 2 ^ (-s).toNat)
  let m := rnEvenPos nd.1 nd.2
  if 0 ≤ s then ⟨m, 2 ^ s.toNat⟩ else ⟨m * 2 ^ (-s).toNat, 1⟩

/-- Round any rational to the nearest binary64 value, by sign symmetry. -/
def roundDouble (f : Frac) : Frac :=
  if f.num = 0 then ⟨0, 1⟩
  else if f.num < 0 then
    let r := roundPositive (-f.num) f.den
    ⟨-r.num, r.den⟩
  else roundPositive f.num f.den

/-- JavaScript's `parseFloat` on decimal text: the exact decimal value
rounded to the nearest binary64 double; `none` models NaN. -/
def jsParseFloat (s : String) : Option Frac := (parseDecimal s).map roundDouble

/-- JavaScript's `+` on doubles: the exact sum, correctly rounded back to
binary64. -/
def jsAdd (a b : Frac) : Frac := roundDouble (a.add b)

/-- The accumulation `totalAmount += parseFloat(instruction.amount)`
performed by `getBatchSummary` (batcher.ts line 74) and by `submitBatch`
(stellar-service.ts line 104): a left fold of binary64 additions starting
from 0, with NaN (`none`) absorbing. -/
def sumAmountsFloat (amounts : List String) : Option Frac :=
  amounts.foldl (fun acc s => acc.bind (fun a => (jsParseFloat s).map (jsAdd a))) (some ⟨0, 1⟩)

/-- Exact decimal summation following the specification's words ("sums
amounts as exact decimals, never binary floating point"), used as the
reference the code's float summation is compared against. -/
def exactDecimalSum (amounts : List String) : Option Frac :=
  amounts.foldl (fun acc s => acc.bind (fun a => (parseDecimal s).map a.add)) (some ⟨0, 1⟩)

/-- Result of `getBatchSummary` (batcher.ts lines 69-83).  `totalAmount` is
kept as the binary64 numeric value (the source stringifies it at the end);
`assetBreakdown` is the insertion-ordered key/count association of the
source's `Map`. -/
structure BatchSummary where
  recipientCount : Nat
  totalAmount : Option Frac
  assetBreakdown : List (String × Nat)
deriving DecidableEq, Repr

/-- One step of `assetCount.set(asset, (assetCount.get(asset) || 0) + 1)` on
a JavaScript `Map`: increment in place if present, else append. -/
def bumpAsset : List (String × Nat) → String → List (String × Nat)
  | [], a => [(a, 1)]
  | (k, v) :: t, a => if k = a then (k, v + 1) :: t else (k, v) :: bumpAsset t a

/-- `getBatchSummary` of `batcher.ts`: recipient count, float total of the
amounts, and per-asset-string counts grouped by the literal asset string. -/
def getBatchSummary (instructions : List PaymentInstruction) : BatchSummary :=
  { recipientCount := instructions.length
    totalAmount := sumAmountsFloat (instructions.map PaymentInstruction.amount)
    assetBreakdown := instructions.foldl (fun m i => bumpAsset m i.asset) [] }

/-- Count recorded for an asset key in an assetBreakdown association. -/
def assetCount (m : List (String × Nat)) (a : String) : Nat :=
  match m.find? (fun p => p.1 == a) with
  | some p => p.2
  | none => 0

/-- The runtime value stored in an Asset's `issuer` field: JavaScript
`null` (the explicit native marker), `undefined` (the result of
destructuring a split with no second part), or an issuer string. -/
inductive IssuerValue where
  | jsNull : IssuerValue
  | jsUndefined : IssuerValue
  | jsString (issuer : String) : IssuerValue
deriving DecidableEq, Repr

/-- An asset as produced by `parseAsset`: code and runtime issuer value. -/
structure Asset where
  code : String
  issuer : IssuerValue
deriving DecidableEq, Repr

/-- `parseAsset` of `batcher.ts` (lines 51-64): `"XLM"` maps to the native
asset with `null` issuer; any other string is split on `':'` and the first
two parts are destructured into code and issuer — when the string has no
`':'`, the issuer is JavaScript `undefined`. -/
def parseAsset (assetString : String) : Asset :=
  if assetString = "XLM" then { code := "XLM", issuer := .jsNull }
  else
    match (charSplit ':' assetString.toList).map String.mk with
    | [] => { code := "", issuer := .jsUndefined }
    | [code] => { code := code, issuer := .jsUndefined }
    | code :: issuer :: _ => { code := code, issuer := .jsString issuer }

/-- `buildTransaction`'s asset dispatch (stellar-service.ts lines 175-178):
`asset.issuer === null` selects the ledger's native asset; every other
issuer value (a string, or JS `undefined`) builds an issued asset. -/
def buildsNativeAsset (a : Asset) : Bool :=
  match a.issuer with
  | .jsNull => true
  | _ => false

/-- Modelled from the spec: `validator.ts` is absent from the sources, so
the recipient check of `validateInstruction` is taken from the
specification's words — "recipient is a syntactically valid account
identifier of the ledger's address format", i.e. 56 base-32 characters
starting with `G`. -/
def validAddress (s : String) : Bool :=
  s.toList.length == 56 &&
    (match s.toList with
     | c :: _ => c = 'G'
     | [] => false) &&
    s.toList.all (fun c => ('A' ≤ c && c ≤ 'Z') || ('2' ≤ c && c ≤ '7'))

/-- Modelled from the spec: the amount check of `validateInstruction` —
"amount parses as a strictly positive decimal (zero and negative
rejected)". -/
def validAmount (s : String) : Bool :=
  match parseDecimal s with
  | some f => decide (0 < f.num)
  | none => false

/-- Modelled from the spec: the asset check of `validateInstruction` —
"asset string is either the native-asset token or matches `code:issuer`
with both parts syntactically valid (non-empty code, issuer a valid
account identifier)". -/
def validAssetString (s : String) : Bool :=
  s == "XLM" ||
    (match (charSplit ':' s.toList).map String.mk with
     | [code, issuer] => (code != "") && validAddress issuer
     | _ => false)

/-- Modelled from the spec: `validateInstruction` of the absent
`validator.ts` — recipient, amount and asset must all pass. -/
def validatePaymentInstruction (i : PaymentInstruction) : Bool :=
  validAddress i.address && validAmount i.amount && validAssetString i.asset

/-- Modelled from the spec: the reason text attached to an invalid
instruction (the exact wording of the absent `validator.ts` is unknown;
only its presence in `createPaymentBatches`' thrown message matters). -/
def validationReason (i : PaymentInstruction) : String :=
  if !validAddress i.address then "Invalid recipient address"
  else if !validAmount i.amount then "Invalid amount"
  else "Invalid asset"

/-- Concrete instruction list with amounts 0.1, 0.2, 0.3 — inputs within
the asset's 7-decimal fractional precision. -/
def permInstructionsA : List PaymentInstruction :=
  [{ address := addressA, amount := "0.1", asset := "XLM" },
   { address := addressB, amount := "0.2", asset := "XLM" },
   { address := addressC, amount := "0.3", asset := "XLM" }]

/-- The same three instructions in reverse order. -/
def permInstructionsB : List PaymentInstruction :=
  [{ address := addressC, amount := "0.3", asset := "XLM" },
   { address := addressB, amount := "0.2", asset := "XLM" },
   { address := addressA, amount := "0.1", asset := "XLM" }]

/-- Per-payment result status of the final report. -/
inductive PayStatus where
  | success : PayStatus
  | failed : PayStatus
deriving DecidableEq, Repr

/-- One entry of `submitBatch`'s result list (stellar-service.ts): the
instruction's data echoed back with the outcome of its batch. -/
structure PaymentResult where
  recipient : String
  amount : String
  asset : String
  status : PayStatus
  transactionHash : Option String
  error : Option String
deriving DecidableEq, Repr

/-- Outcome of one batch's build/sign/submit round-trip, supplied by the
environment (the ledger): the submission succeeded with a transaction hash,
the ledger rejected it (`result.success = false`, with an optional error
string), or `buildTransaction`/`submitTransaction` threw with a message. -/
inductive SubmitOutcome where
  | success (transactionHash : String) : SubmitOutcome
  | failure (error : Option String) : SubmitOutcome
  | thrown (message : String) : SubmitOutcome
deriving DecidableEq, Repr

/-- Whether an outcome is the successful one. -/
def SubmitOutcome.isSuccess : SubmitOutcome → Bool
  | .success _ => true
  | _ => false

/-- Ledger interactions of one `submitBatch` run, in order: the initial
`server.loadAccount` (stellar-service.ts line 52) and one submission per
processed batch. -/
inductive LedgerEvent where
  | loadAccount : LedgerEvent
  | submitTransaction (batchIndex : Nat) : LedgerEvent
deriving DecidableEq, Repr

/-- The mutable state of `submitBatch`'s batch loop: accumulated results,
the in-memory sequence counter, and the running success/fail tallies. -/
structure LoopState where
  results : List PaymentResult
  sequenceNumber : Int
  successCount : Nat
  failCount : Nat
deriving DecidableEq, Repr

/-- The `BatchResult` value returned by `submitBatch`, with the final value
of the sequence counter exposed for the bookkeeping claims. -/
structure SubmitRun where
  totalRecipients : Nat
  totalAmount : Option Frac
  totalTransactions : Nat
  results : List PaymentResult
  successful : Nat
  failed : Nat
  finalSequence : Int
deriving DecidableEq, Repr

/-- The message thrown by `createPaymentBatches` at an invalid instruction
(stellar-service.ts line 131). -/
def invalidInstructionMessage (i : PaymentInstruction) : String :=
  "Invalid payment instruction for " ++ i.address ++ ": " ++ validationReason i

/-- Loop of the service's private `createPaymentBatches`
(stellar-service.ts lines 123-147): validate each instruction as it is
reached — throwing at the first invalid one — then chunk exactly as the
batcher does. -/
def createPaymentBatchesGo (maxOperationsPerTransaction : Int) :
    List PaymentInstruction → List (List PaymentInstruction) → List PaymentInstruction →
      Except String (List (List PaymentInstruction))
  | [], batches, currentBatch =>
      .ok (batches ++ (if currentBatch.isEmpty then [] else [currentBatch]))
  | instruction :: rest, batches, currentBatch =>
      if validatePaymentInstruction instruction then
        let currentBatch' := currentBatch ++ [instruction]
        if (currentBatch'.length : Int) ≥ maxOperationsPerTransaction then
          createPaymentBatchesGo maxOperationsPerTransaction rest
            (batches ++ [currentBatch']) []
        else
          createPaymentBatchesGo maxOperationsPerTransaction rest batches currentBatch'
      else .error (invalidInstructionMessage instruction)

/-- `createPaymentBatches` of `stellar-service.ts`: split the instructions
into batches, throwing (modelled as `Except.error`) at the first invalid
instruction. -/
def createPaymentBatches (maxOperationsPerTransaction : Int)
    (instructions : List PaymentInstruction) :
    Except String (List (List PaymentInstruction)) :=
  createPaymentBatchesGo maxOperationsPerTransaction instructions [] []

/-- `result.error || 'Unknown error'` of the failure branch
(stellar-service.ts line 85): a missing or empty error string falls back to
the default. -/
def orUnknown : Option String → String
  | some s => if s = "" then "Unknown error" else s
  | none => "Unknown error"

/-- The success `PaymentResult` pushed for one instruction of a batch whose
transaction succeeded. -/
def successResult (transactionHash : String) (i : PaymentInstruction) : PaymentResult :=
  { recipient := i.address, amount := i.amount, asset := i.asset,
    status := .success, transactionHash := some transactionHash, error := none }

/-- The failed `PaymentResult` pushed for one instruction of a batch whose
submission failed or threw. -/
def failedResult (message : String) (i : PaymentInstruction) : PaymentResult :=
  { recipient := i.address, amount := i.amount, asset := i.asset,
    status := .failed, transactionHash := none, error := some message }

/-- One iteration of `submitBatch`'s batch loop (stellar-service.ts lines
60-102): on success, push a success result per instruction and increment
the sequence counter by exactly 1; on a ledger rejection or a thrown
error, push failed results and leave the counter unchanged. -/
def processBatch (batch : List PaymentInstruction) (o : SubmitOutcome)
    (st : LoopState) : LoopState :=
  match o with
  | .success h =>
      { results := st.results ++ batch.map (successResult h)
        sequenceNumber := st.sequenceNumber + 1
        successCount := st.successCount + batch.length
        failCount := st.failCount }
  | .failure e =>
      { results := st.results ++ batch.map (failedResult (orUnknown e))
        sequenceNumber := st.sequenceNumber
        successCount := st.successCount
        failCount := st.failCount + batch.length }
  | .thrown msg =>
      { results := st.results ++ batch.map (failedResult msg)
        sequenceNumber := st.sequenceNumber
        successCount := st.successCount
        failCount := st.failCount + batch.length }

/-- The whole batch loop: batches are processed strictly in order, the
`k`-th batch receiving the environment's `k`-th outcome; there is no early
abort. -/
def processBatches (outcomes : Nat → SubmitOutcome) :
    List (List PaymentInstruction) → Nat → LoopState → LoopState
  | [], _, st => st
  | b :: bs, k, st => processBatches outcomes bs (k + 1) (processBatch b (outcomes k) st)

/-- The loop state at the start of a run: no results, the sequence counter
freshly loaded from the signing account, zero tallies. -/
def initialLoopState (initialSequence : Int) : LoopState :=
  { results := [], sequenceNumber := initialSequence, successCount := 0, failCount := 0 }

/-- `submitBatch` of `stellar-service.ts` (lines 47-118).  The source first
loads the signing account (line 52) — recorded as the leading ledger event —
then calls `createPaymentBatches` (line 56), which throws on invalid input,
and only then runs the batch loop.  The per-batch build/sign/submit outcome
is supplied by the `outcomes` environment. -/
def submitBatch (maxOperationsPerTransaction : Int)
    (instructions : List PaymentInstruction) (initialSequence : Int)
    (outcomes : Nat → SubmitOutcome) : List LedgerEvent × Except String SubmitRun :=
  match createPaymentBatches maxOperationsPerTransaction instructions with
  | .error e => ([LedgerEvent.loadAccount], .error e)
  | .ok batches =>
      let final := processBatches outcomes batches 0 (initialLoopState initialSequence)
      (LedgerEvent.loadAccount :: (List.range batches.length).map LedgerEvent.submitTransaction,
       .ok { totalRecipients := instructions.length
             totalAmount := sumAmountsFloat (instructions.map PaymentInstruction.amount)
             totalTransactions := batches.length
             results := final.results
             successful := final.successCount
             failed := final.failCount
             finalSequence := final.sequenceNumber })

/-- An instruction whose recipient fails the address check. -/
def invalidInstruction : PaymentInstruction :=
  { address := "INVALID_ADDRESS", amount := "100", asset := "XLM" }

/-- A second invalid instruction (negative amount), distinct from the
first. -/
def invalidInstruction2 : PaymentInstruction :=
  { address := "ALSO_INVALID", amount := "-5", asset := "XLM" }

/-- Data rows of `parseCSV` (parser.ts lines 44-59): trim each line, skip
empty ones, split on commas, fail when a row has fewer columns than the
largest required index, and otherwise pick the three addressed columns.
`rowNum` is the 1-based file row number used in the error message (the
first data row is row 2). -/
def parseRows (addressIndex amountIndex assetIndex : Nat) :
    List (List Char) → Nat → Except String (List PaymentInstruction)
  | [], _ => .ok []
  | l :: rest, rowNum =>
      let line := charTrim l
      if line.isEmpty then parseRows addressIndex amountIndex assetIndex rest (rowNum + 1)
      else
        let parts := (charSplit ',' line).map charTrim
        if parts.length < max (max addressIndex amountIndex) assetIndex + 1 then
          .error ("Row " ++ toString rowNum ++ " has insufficient columns")
        else
          match parseRows addressIndex amountIndex assetIndex rest (rowNum + 1) with
          | .error e => .error e
          | .ok instructions =>
              .ok ({ address := String.mk (parts.getD addressIndex [])
                     amount := String.mk (parts.getD amountIndex [])
                     asset := String.mk (parts.getD assetIndex []) } :: instructions)

/-- `parseCSV` of `parser.ts` (lines 24-66): trim the content, split into
lines, require a header plus at least one line, locate the `address`,
`amount` and `asset` columns case-insensitively, parse the data rows, and
reject an empty instruction list. -/
def parseCSV (content : String) : Except String (List PaymentInstruction) :=
  let lines := charSplit '\n' (charTrim content.toList)
  if lines.length < 2 then
    .error "CSV must have at least a header row and one data row"
  else
    let headers := (charSplit ',' (lines.headD [])).map (fun h => (charTrim h).map Char.toLower)
    match headers.findIdx? (· == "address".toList), headers.findIdx? (· == "amount".toList),
        headers.findIdx? (· == "asset".toList) with
    | some addressIndex, some amountIndex, some assetIndex =>
        match parseRows addressIndex amountIndex assetIndex lines.tail 2 with
        | .error e => .error e
        | .ok instructions =>
            if instructions.isEmpty then
              .error "No valid payment instructions found in CSV"
            else .ok instructions
    | _, _, _ => .error "CSV must have address, amount, and asset columns"

/-- A well-formed one-row CSV input. -/
def sampleCSV : String := "address,amount,asset\n" ++ addressA ++ ",100,XLM"

/-- The identifying data echoed from an instruction into its result. -/
def resultKey (r : PaymentResult) : String × String × String :=
  (r.recipient, r.amount, r.asset)

/-- The identifying data of an instruction. -/
def instructionKey (i : PaymentInstruction) : String × String × String :=
  (i.address, i.amount, i.asset)

/-- A concrete outcome environment: the first batch's submission is
rejected by the ledger, every later one succeeds. -/
def sampleOutcomes : Nat → SubmitOutcome := fun k =>
  if k = 0 then SubmitOutcome.failure (some "tx_failed") else SubmitOutcome.success "abc123"

/-- The accumulator of `createBatchesGo` only ever receives further batches
appended on its right. -/
theorem createBatchesGo_acc (m : Int) (instrs : List PaymentInstruction)
    (acc : List Batch) (cur : List PaymentInstruction) (idx : Int) :
    createBatchesGo m instrs acc cur idx = acc ++ createBatchesGo m instrs [] cur idx := by
  induction instrs generalizing acc cur idx with
  | nil => simp [createBatchesGo]
  | cons i rest ih =>
      simp only [createBatchesGo]
      by_cases h : ((cur ++ [i]).length : Int) ≥ m
      · simp only [if_pos h]
        rw [ih (acc ++ [_]), ih ([] ++ [_])]
        simp
      · simp only [if_neg h]
        exact ih acc _ idx

/-- Step equation of `createBatchesGo`: with an empty accumulator and no
instructions left, a non-empty pending buffer is flushed as one final batch. -/
theorem createBatchesGo_nil (m : Int) (cur : List PaymentInstruction) (idx : Int) :
    createBatchesGo m [] [] cur idx
      = if cur.isEmpty then []
        else [{ transactionIndex := idx, payments := cur }] := by
  by_cases h : cur.isEmpty <;> simp [createBatchesGo, h]

/-- Step equation of `createBatchesGo`: when pushing the next instruction
reaches the bound, the buffer is closed as a batch and the index advances. -/
theorem createBatchesGo_close (m : Int) (i : PaymentInstruction)
    (rest cur : List PaymentInstruction) (idx : Int)
    (h : ((cur ++ [i]).length : Int) ≥ m) :
    createBatchesGo m (i :: rest) [] cur idx
      = { transactionIndex := idx, payments := cur ++ [i] }
          :: createBatchesGo m rest [] [] (idx + 1) := by
  simp only [createBatchesGo, if_pos h]
  rw [createBatchesGo_acc]
  simp

/-- Step equation of `createBatchesGo`: below the bound the instruction is
only appended to the pending buffer. -/
theorem createBatchesGo_skip (m : Int) (i : PaymentInstruction)
    (rest cur : List PaymentInstruction) (idx : Int)
    (h : ¬ ((cur ++ [i]).length : Int) ≥ m) :
    createBatchesGo m (i :: rest) [] cur idx
      = createBatchesGo m rest [] (cur ++ [i]) idx := by
  simp only [createBatchesGo, if_neg h]

/-- Concatenating the payments of the batches of `createBatchesGo` recovers
the pending payments followed by the remaining instructions, for every bound. -/
theorem createBatchesGo_join (m : Int) (instrs : List PaymentInstruction)
    (cur : List PaymentInstruction) (idx : Int) :
    ((createBatchesGo m instrs [] cur idx).map Batch.payments).flatten = cur ++ instrs := by
  induction instrs generalizing cur idx with
  | nil =>
      rw [createBatchesGo_nil]
      by_cases h : cur.isEmpty
      · simp [h, List.isEmpty_iff.mp h]
      · simp [h]
  | cons i rest ih =>
      by_cases h : ((cur ++ [i]).length : Int) ≥ m
      · rw [createBatchesGo_close m i rest cur idx h]
        simp [ih]
      · rw [createBatchesGo_skip m i rest cur idx h, ih]
        simp

/-- Every batch that `createBatchesGo` emits from a pending buffer shorter
than the positive bound has at most `m.toNat` payments. -/
theorem createBatchesGo_sizes (m : Int) (hm : 1 ≤ m) (instrs : List PaymentInstruction)
    (cur : List PaymentInstruction) (idx : Int) (hcur : cur.length < m.toNat) :
    ∀ b ∈ createBatchesGo m instrs [] cur idx, b.payments.length ≤ m.toNat := by
  induction instrs generalizing cur idx with
  | nil =>
      intro b hb
      rw [createBatchesGo_nil] at hb
      by_cases h : cur.isEmpty
      · simp [h] at hb
      · simp [h] at hb
        subst hb
        exact Nat.le_of_lt hcur
  | cons i rest ih =>
      intro b hb
      by_cases h : ((cur ++ [i]).length : Int) ≥ m
      · rw [createBatchesGo_close m i rest cur idx h] at hb
        rcases List.mem_cons.mp hb with hb | hb
        · subst hb
          simp only [List.length_append, List.length_singleton]
          omega
        · refine ih [] (idx + 1) ?_ b hb
          simp only [List.length_nil]
          omega
      · rw [createBatchesGo_skip m i rest cur idx h] at hb
        refine ih (cur ++ [i]) idx ?_ b hb
        have hlt : ((cur ++ [i]).length : Int) < m := lt_of_not_ge h
        simp only [List.length_append, List.length_singleton] at hlt
        omega

/-- Number of batches of `createBatchesGo` for a positive bound: the pending
buffer plus remaining instructions are cut into chunks of `m.toNat`,
rounding up. -/
theorem createBatchesGo_length (m : Int) (hm : 1 ≤ m) (instrs : List PaymentInstruction)
    (cur : List PaymentInstruction) (idx : Int) (hcur : cur.length < m.toNat) :
    (createBatchesGo m instrs [] cur idx).length
      = (cur.length + instrs.length + m.toNat - 1) / m.toNat := by
  have hm0 : 0 < m.toNat := by omega
  induction instrs generalizing cur idx with
  | nil =>
      rw [createBatchesGo_nil]
      by_cases h : cur.isEmpty
      · have hc : cur = [] := List.isEmpty_iff.mp h
        subst hc
        have h0 : (m.toNat - 1) / m.toNat = 0 := Nat.div_eq_of_lt (by omega)
        simpa using h0.symm
      · have hne : cur ≠ [] := fun hc => by simp [hc] at h
        have hpos : 0 < cur.length := List.length_pos.mpr hne
        have he : cur.length + ([] : List PaymentInstruction).length + m.toNat - 1
            = (cur.length - 1) + m.toNat := by
          simp only [List.length_nil]
          omega
        rw [he, Nat.add_div_right _ hm0, Nat.div_eq_of_lt (by omega)]
        simp [h]
  | cons i rest ih =>
      by_cases h : ((cur ++ [i]).length : Int) ≥ m
      · rw [createBatchesGo_close m i rest cur idx h]
        have h' : (cur.length + 1 : Int) ≥ m := by
          simpa using h
        have hclose : cur.length + 1 = m.toNat := by omega
        rw [List.length_cons, ih [] (idx + 1) (by simp; omega)]
        simp only [List.length_nil, List.length_cons]
        have harith : cur.length + (rest.length + 1) + m.toNat - 1
            = (0 + rest.length + m.toNat - 1) + m.toNat := by omega
        rw [harith, Nat.add_div_right _ hm0]
      · rw [createBatchesGo_skip m i rest cur idx h]
        have h' : ((cur ++ [i]).length : Int) < m := lt_of_not_ge h
        have hlt : (cur ++ [i]).length < m.toNat := by
          simp only [List.length_append, List.length_singleton] at h' ⊢
          omega
        have e2 : (cur ++ [i]).length + rest.length + m.toNat - 1
            = cur.length + (rest.length + 1) + m.toNat - 1 := by
          simp only [List.length_append, List.length_singleton]
          omega
        rw [ih (cur ++ [i]) idx hlt, e2]
        simp only [List.length_cons]

/-- The transaction indices assigned by `createBatchesGo` are consecutive
integers starting at the running index. -/
theorem createBatchesGo_indices (m : Int) (instrs : List PaymentInstruction)
    (cur : List PaymentInstruction) (idx : Int) :
    (createBatchesGo m instrs [] cur idx).map Batch.transactionIndex
      = (List.range (createBatchesGo m instrs [] cur idx).length).map
          (fun (j : Nat) => idx + (j : Int)) := by
  induction instrs generalizing cur idx with
  | nil =>
      rw [createBatchesGo_nil]
      by_cases h : cur.isEmpty <;> simp [h, List.range_succ]
  | cons i rest ih =>
      by_cases h : ((cur ++ [i]).length : Int) ≥ m
      · rw [createBatchesGo_close m i rest cur idx h]
        simp only [List.map_cons, List.length_cons, ih [] (idx + 1)]
        rw [List.range_succ_eq_map]
        simp only [List.map_cons, List.map_map]
        congr 1
        · simp
        · apply List.map_congr_left
          intro a _
          simp only [Function.comp_apply]
          push_cast
          ring
      · rw [createBatchesGo_skip m i rest cur idx h]
        exact ih (cur ++ [i]) idx

/-- For a non-positive bound every pushed instruction immediately closes a
batch, so `createBatchesGo` emits one singleton batch per instruction. -/
theorem createBatchesGo_nonpositive (m : Int) (hm : m ≤ 0)
    (instrs : List PaymentInstruction) (idx : Int) :
    (createBatchesGo m instrs [] [] idx).map Batch.payments
      = instrs.map (fun i => [i]) := by
  induction instrs generalizing idx with
  | nil => rw [createBatchesGo_nil]; simp
  | cons i rest ih =>
      have h : ((([] : List PaymentInstruction) ++ [i]).length : Int) ≥ m := by
        simp only [List.nil_append, List.length_singleton]
        omega
      rw [createBatchesGo_close m i rest [] idx h]
      simp [ih]

/-- C1 (amended to positive bounds): for every bound `m ≥ 1` and every
instruction list, `createBatches` yields `⌈n/m⌉` batches, each of size at
most `m`, whose payments concatenate back to the input in order, and whose
transaction indices are the contiguous integers `0, 1, ...` with no gaps or
repeats.  (The original claim also asserted this for `m = 0`, where the
size bound fails; see the counterexample.) -/
theorem createBatches_positive_bound_spec (instrs : List PaymentInstruction)
    (m : Int) (hm : 1 ≤ m) :
    (createBatches instrs m).length = (instrs.length + m.toNat - 1) / m.toNat ∧
    (∀ b ∈ createBatches instrs m, b.payments.length ≤ m.toNat) ∧
    ((createBatches instrs m).map Batch.payments).flatten = instrs ∧
    (createBatches instrs m).map Batch.transactionIndex
      = (List.range (createBatches instrs m).length).map (fun (j : Nat) => (j : Int)) := by
  have hcur : ([] : List PaymentInstruction).length < m.toNat := by
    simp only [List.length_nil]
    omega
  refine ⟨?_, ?_, ?_, ?_⟩
  · simpa [createBatches] using createBatchesGo_length m hm instrs [] 0 hcur
  · simpa [createBatches] using createBatchesGo_sizes m hm instrs [] 0 hcur
  · simpa [createBatches] using createBatchesGo_join m instrs [] 0
  · simpa [createBatches] using createBatchesGo_indices m instrs [] 0

/-- Witness for C1: the amended claim evaluated at three concrete
instructions and bound 2 (two batches of sizes 2 and 1, indices 0 and 1). -/
theorem createBatches_positive_bound_spec_witness :
    (1 : Int) ≤ 2 ∧
    ((createBatches sampleInstructions 2).length
        = (sampleInstructions.length + (2 : Int).toNat - 1) / (2 : Int).toNat ∧
     (∀ b ∈ createBatches sampleInstructions 2, b.payments.length ≤ (2 : Int).toNat) ∧
     ((createBatches sampleInstructions 2).map Batch.payments).flatten = sampleInstructions ∧
     (createBatches sampleInstructions 2).map Batch.transactionIndex
       = (List.range (createBatches sampleInstructions 2).length).map
           (fun (j : Nat) => (j : Int))) :=
  ⟨by decide, createBatches_positive_bound_spec sampleInstructions 2 (by decide)⟩

/-- Counterexample to C1 as stated: the claim quantifies over all
non-negative bounds, but at bound `m = 0` the conjunct "every batch has at
most `m` payments" fails — `createBatches` puts the single instruction into
a batch of size 1 > 0. -/
theorem createBatches_zero_bound_counterexample :
    ¬ (∀ b ∈ createBatches [sampleInstructionA] 0, (b.payments.length : Int) ≤ 0) := by
  decide

/-- C9: for every bound `m ≤ 0` `createBatches` is total and returns one
singleton batch per instruction: the batch size saturates at 1 rather than
producing empty batches or diverging. -/
theorem createBatches_nonpositive_bound (instrs : List PaymentInstruction)
    (m : Int) (hm : m ≤ 0) :
    (createBatches instrs m).map Batch.payments = instrs.map (fun i => [i]) ∧
    (createBatches instrs m).length = instrs.length := by
  have hmap := createBatchesGo_nonpositive m hm instrs 0
  refine ⟨hmap, ?_⟩
  have := congrArg List.length hmap
  simpa [createBatches] using this

/-- Witness for C9: at bound `-2` the three sample instructions produce
three singleton batches. -/
theorem createBatches_nonpositive_bound_witness :
    (-2 : Int) ≤ 0 ∧
    ((createBatches sampleInstructions (-2)).map Batch.payments
        = sampleInstructions.map (fun i => [i]) ∧
     (createBatches sampleInstructions (-2)).length = sampleInstructions.length) :=
  ⟨by decide, createBatches_nonpositive_bound sampleInstructions (-2) (by decide)⟩

/-- One `Map.set` step changes exactly the bumped key's count. -/
theorem assetCount_bumpAsset (m : List (String × Nat)) (b a : String) :
    assetCount (bumpAsset m b) a = assetCount m a + (if b = a then 1 else 0) := by
  induction m with
  | nil =>
      by_cases h : b = a <;> simp [bumpAsset, assetCount, h]
  | cons p t ih =>
      obtain ⟨k, v⟩ := p
      by_cases hk : k = b
      · subst hk
        by_cases h : k = a <;> simp [bumpAsset, assetCount, h]
      · by_cases h : k = a
        · subst h
          have hb : ¬ b = k := fun hc => hk hc.symm
          simp [bumpAsset, assetCount, hk, hb]
        · simp only [bumpAsset, if_neg hk, assetCount, List.find?]
          have : (k == a) = false := beq_eq_false_iff_ne.mpr h
          simp only [this]
          exact ih

/-- The asset count accumulated by `getBatchSummary`'s fold is the initial
count plus the number of instructions bearing that asset string. -/
theorem assetCount_foldl (l : List PaymentInstruction) (init : List (String × Nat))
    (a : String) :
    assetCount (l.foldl (fun m i => bumpAsset m i.asset) init) a
      = assetCount init a + l.countP (fun i => i.asset == a) := by
  induction l generalizing init with
  | nil => simp
  | cons i t ih =>
      simp only [List.foldl_cons, ih, assetCount_bumpAsset, List.countP_cons]
      by_cases h : i.asset = a
      · simp [h]
        omega
      · have : (i.asset == a) = false := beq_eq_false_iff_ne.mpr h
        simp [h, this]

/-- Counterexample to C7 as stated: `getBatchSummary` is not
order-independent in `totalAmount`.  The two lists are permutations of one
another, yet the float totals differ: in binary64, 0.1 + 0.2 + 0.3 rounds
to 0.6000000000000001 while 0.3 + 0.2 + 0.1 rounds to 0.6, because float
addition is not associative. -/
theorem getBatchSummary_perm_counterexample :
    permInstructionsA.Perm permInstructionsB ∧
    (getBatchSummary permInstructionsA).totalAmount.map Frac.norm
      ≠ (getBatchSummary permInstructionsB).totalAmount.map Frac.norm := by
  constructor
  · have hrev : permInstructionsB = permInstructionsA.reverse := by decide
    rw [hrev]
    exact (List.reverse_perm permInstructionsA).symm
  · decide

/-- C7 (amended): permuting the instruction list leaves `recipientCount`
and the `assetBreakdown` mapping (every key's count) unchanged;
`totalAmount`, computed in binary floating point, is order-dependent and is
excluded (see the counterexample). -/
theorem getBatchSummary_perm_invariant (l₁ l₂ : List PaymentInstruction)
    (h : l₁.Perm l₂) :
    (getBatchSummary l₁).recipientCount = (getBatchSummary l₂).recipientCount ∧
    ∀ a, assetCount (getBatchSummary l₁).assetBreakdown a
          = assetCount (getBatchSummary l₂).assetBreakdown a := by
  constructor
  · simpa [getBatchSummary] using h.length_eq
  · intro a
    simp only [getBatchSummary, assetCount_foldl]
    rw [h.countP_eq]

/-- Witness for C7: the amended invariant applied to the two concrete
permuted lists. -/
theorem getBatchSummary_perm_invariant_witness :
    permInstructionsB.Perm permInstructionsA ∧
    ((getBatchSummary permInstructionsB).recipientCount
        = (getBatchSummary permInstructionsA).recipientCount ∧
     ∀ a, assetCount (getBatchSummary permInstructionsB).assetBreakdown a
          = assetCount (getBatchSummary permInstructionsA).assetBreakdown a) :=
  have hp : permInstructionsB.Perm permInstructionsA := by
    have hrev : permInstructionsB = permInstructionsA.reverse := by decide
    rw [hrev]
    exact List.reverse_perm permInstructionsA
  ⟨hp, getBatchSummary_perm_invariant permInstructionsB permInstructionsA hp⟩

/-- Counterexample to C6 as stated: summation of amounts is performed in
binary64 floating point via `parseFloat`, not exact decimal arithmetic.
For the amounts 0.1 and 0.2 — both within the asset's 7-decimal fractional
precision — the code's total differs from the exact decimal sum 3/10. -/
theorem summary_totalAmount_not_exact_counterexample :
    (getBatchSummary [{ address := addressA, amount := "0.1", asset := "XLM" },
                      { address := addressB, amount := "0.2", asset := "XLM" }]).totalAmount.map
        Frac.norm
      ≠ (exactDecimalSum ["0.1", "0.2"]).map Frac.norm := by
  decide

/-- C6 (amended): the sums in `getBatchSummary` and `submitBatch` are
binary64 floating-point sums.  They agree with exact decimal arithmetic
when every value and partial sum is representable — the spec's own example
10.5 + 20.25 = 30.75 holds exactly — but not for all inputs within the
asset's fractional precision: 0.1 + 0.2 yields the double
1351079888211149/2^52 (0.30000000000000004…), not 3/10. -/
theorem summary_totalAmount_float_amended :
    (getBatchSummary [{ address := addressA, amount := "10.5", asset := "XLM" },
                      { address := addressB, amount := "20.25", asset := "XLM" }]).totalAmount.map
        Frac.norm = some ⟨123, 4⟩ ∧
    (exactDecimalSum ["10.5", "20.25"]).map Frac.norm = some ⟨123, 4⟩ ∧
    (getBatchSummary [{ address := addressA, amount := "0.1", asset := "XLM" },
                      { address := addressB, amount := "0.2", asset := "XLM" }]).totalAmount.map
        Frac.norm = some ⟨1351079888211149, 4503599627370496⟩ ∧
    (exactDecimalSum ["0.1", "0.2"]).map Frac.norm = some ⟨3, 10⟩ := by
  decide

/-- Counterexample to C8 as stated: `parseAsset` can produce a non-native
asset that carries no issuer.  On the colon-free string "USDC" the split
has no second component, the destructured issuer is JavaScript `undefined`,
and `buildTransaction` would treat the value as an issued asset with no
issuer identity. -/
theorem parseAsset_counterexample :
    (parseAsset "USDC").code ≠ "XLM" ∧
    (parseAsset "USDC").issuer = IssuerValue.jsUndefined ∧
    buildsNativeAsset (parseAsset "USDC") = false := by
  decide

/-- C8 (amended): restricted to asset strings the validator accepts, the
invariant holds with "native" read as the token "XLM": the issuer is
`null` exactly for "XLM", every other valid asset string carries a real
issuer string that is a valid address, and `buildTransaction` treats
exactly the null-issuer case as the ledger's native asset. -/
theorem parseAsset_valid_invariant (s : String) (h : validAssetString s = true) :
    ((parseAsset s).issuer = IssuerValue.jsNull ↔ s = "XLM") ∧
    (s ≠ "XLM" →
      ∃ iss, (parseAsset s).issuer = IssuerValue.jsString iss ∧ validAddress iss = true) ∧
    (buildsNativeAsset (parseAsset s) = true ↔ s = "XLM") := by
  by_cases hx : s = "XLM"
  · subst hx
    refine ⟨by simp [parseAsset], fun hc => absurd rfl hc, by simp [parseAsset, buildsNativeAsset]⟩
  · have hbeq : (s == "XLM") = false := beq_eq_false_iff_ne.mpr hx
    rw [validAssetString, hbeq, Bool.false_or] at h
    rcases hsplit : (charSplit ':' s.toList).map String.mk with _ | ⟨code, tail⟩
    · rw [hsplit] at h
      simp at h
    · rcases tail with _ | ⟨issuer, rest⟩
      · rw [hsplit] at h
        simp at h
      · rcases rest with _ | ⟨r, rs⟩
        · rw [hsplit] at h
          simp only [Bool.and_eq_true] at h
          have hpa : parseAsset s = { code := code, issuer := IssuerValue.jsString issuer } := by
            rw [parseAsset, if_neg hx, hsplit]
          refine ⟨?_, fun _ => ⟨issuer, ?_, h.2⟩, ?_⟩
          · rw [hpa]
            simp [hx]
          · rw [hpa]
          · rw [hpa]
            simp [buildsNativeAsset, hx]
        · rw [hsplit] at h
          simp at h

/-- Witness for C8: the amended invariant at a concrete valid issued-asset
string. -/
theorem parseAsset_valid_invariant_witness :
    validAssetString ("USDC:" ++ addressB) = true ∧
    (((parseAsset ("USDC:" ++ addressB)).issuer = IssuerValue.jsNull
        ↔ ("USDC:" ++ addressB) = "XLM") ∧
     (("USDC:" ++ addressB) ≠ "XLM" →
       ∃ iss, (parseAsset ("USDC:" ++ addressB)).issuer = IssuerValue.jsString iss ∧
         validAddress iss = true) ∧
     (buildsNativeAsset (parseAsset ("USDC:" ++ addressB)) = true
        ↔ ("USDC:" ++ addressB) = "XLM")) :=
  ⟨by decide, parseAsset_valid_invariant ("USDC:" ++ addressB) (by decide)⟩

/-- When every instruction is valid, the service's validating chunker
returns exactly the batcher's chunks appended to its accumulator (the
transaction index plays no role in the contents). -/
theorem createPaymentBatchesGo_ok (m : Int) (instrs : List PaymentInstruction) :
    ∀ (acc : List (List PaymentInstruction)) (cur : List PaymentInstruction) (idx : Int),
      (∀ i ∈ instrs, validatePaymentInstruction i = true) →
      createPaymentBatchesGo m instrs acc cur
        = .ok (acc ++ (createBatchesGo m instrs [] cur idx).map Batch.payments) := by
  induction instrs with
  | nil =>
      intro acc cur idx _
      rw [createBatchesGo_nil]
      by_cases h : cur.isEmpty <;> simp [createPaymentBatchesGo, h]
  | cons i rest ih =>
      intro acc cur idx hv
      have hvi : validatePaymentInstruction i = true := hv i (List.mem_cons_self i rest)
      have hvr : ∀ j ∈ rest, validatePaymentInstruction j = true :=
        fun j hj => hv j (List.mem_cons_of_mem i hj)
      by_cases h : ((cur ++ [i]).length : Int) ≥ m
      · rw [createBatchesGo_close m i rest cur idx h]
        simp only [createPaymentBatchesGo, hvi, if_true, if_pos h]
        rw [ih (acc ++ [cur ++ [i]]) [] (idx + 1) hvr]
        simp
      · rw [createBatchesGo_skip m i rest cur idx h]
        simp only [createPaymentBatchesGo, hvi, if_true, if_neg h]
        exact ih acc (cur ++ [i]) idx hvr

/-- When some instruction is invalid, the service's chunker throws. -/
theorem createPaymentBatchesGo_error (m : Int) (instrs : List PaymentInstruction) :
    ∀ (acc : List (List PaymentInstruction)) (cur : List PaymentInstruction),
      (∃ i ∈ instrs, validatePaymentInstruction i = false) →
      ∃ e, createPaymentBatchesGo m instrs acc cur = .error e := by
  induction instrs with
  | nil =>
      intro acc cur h
      obtain ⟨i, hi, _⟩ := h
      exact absurd hi (List.not_mem_nil i)
  | cons i rest ih =>
      intro acc cur h
      by_cases hvi : validatePaymentInstruction i = true
      · obtain ⟨j, hj, hjv⟩ := h
        have hjr : j ∈ rest := by
          rcases List.mem_cons.mp hj with hji | hjr
          · subst hji
            rw [hvi] at hjv
            cases hjv
          · exact hjr
        simp only [createPaymentBatchesGo, hvi, if_true]
        by_cases hc : ((cur ++ [i]).length : Int) ≥ m
        · rw [if_pos hc]
          exact ih (acc ++ [cur ++ [i]]) [] ⟨j, hjr, hjv⟩
        · rw [if_neg hc]
          exact ih acc (cur ++ [i]) ⟨j, hjr, hjv⟩
      · refine ⟨invalidInstructionMessage i, ?_⟩
        have hvi' : validatePaymentInstruction i = false := by
          cases hb : validatePaymentInstruction i
          · rfl
          · exact absurd hb hvi
        simp [createPaymentBatchesGo, hvi']

/-- The service's chunker stops at the first invalid instruction and throws
exactly that instruction's message; the instructions after it are never
examined. -/
theorem createPaymentBatchesGo_first_invalid (m : Int) (pre : List PaymentInstruction) :
    ∀ (acc : List (List PaymentInstruction)) (cur : List PaymentInstruction)
      (bad : PaymentInstruction) (rest : List PaymentInstruction),
      (∀ i ∈ pre, validatePaymentInstruction i = true) →
      validatePaymentInstruction bad = false →
      createPaymentBatchesGo m (pre ++ bad :: rest) acc cur
        = .error (invalidInstructionMessage bad) := by
  induction pre with
  | nil =>
      intro acc cur bad rest _ hbad
      simp [createPaymentBatchesGo, hbad]
  | cons p pre' ih =>
      intro acc cur bad rest hpre hbad
      have hvp : validatePaymentInstruction p = true := hpre p (List.mem_cons_self p pre')
      have hpre' : ∀ i ∈ pre', validatePaymentInstruction i = true :=
        fun i hi => hpre i (List.mem_cons_of_mem p hi)
      simp only [List.cons_append, createPaymentBatchesGo, hvp, if_true]
      by_cases hc : ((cur ++ [p]).length : Int) ≥ m
      · rw [if_pos hc]
        exact ih (acc ++ [cur ++ [p]]) [] bad rest hpre' hbad
      · rw [if_neg hc]
        exact ih acc (cur ++ [p]) bad rest hpre' hbad

/-- One loop iteration moves the sequence counter by exactly 1 on success
and 0 otherwise. -/
theorem processBatch_sequenceNumber (batch : List PaymentInstruction)
    (o : SubmitOutcome) (st : LoopState) :
    (processBatch batch o st).sequenceNumber
      = st.sequenceNumber + (if o.isSuccess then 1 else 0) := by
  cases o <;> simp [processBatch, SubmitOutcome.isSuccess]

/-- After the whole loop the sequence counter has advanced by the number of
successful outcomes among the processed batch positions. -/
theorem processBatches_sequenceNumber (outcomes : Nat → SubmitOutcome)
    (bs : List (List PaymentInstruction)) :
    ∀ (k : Nat) (st : LoopState),
      (processBatches outcomes bs k st).sequenceNumber
        = st.sequenceNumber
          + (((List.range bs.length).countP (fun j => (outcomes (k + j)).isSuccess) : Nat) : Int) := by
  induction bs with
  | nil =>
      intro k st
      simp [processBatches]
  | cons b bs ih =>
      intro k st
      simp only [processBatches, List.length_cons]
      rw [ih (k + 1), processBatch_sequenceNumber, List.range_succ_eq_map,
        List.countP_cons, List.countP_map]
      have hcong : (List.range bs.length).countP
            ((fun j => (outcomes (k + j)).isSuccess) ∘ Nat.succ)
          = (List.range bs.length).countP (fun j => (outcomes (k + 1 + j)).isSuccess) := by
        apply List.countP_congr
        intro a _
        simp only [Function.comp_apply]
        have : k + (a + 1) = k + 1 + a := by omega
        rw [this]
      rw [hcong]
      cases hks : (outcomes k).isSuccess
      · simp [hks]
      · simp [hks]
        omega

/-- The loop is compositional over list append, with the outcome index
advanced past the prefix. -/
theorem processBatches_append (outcomes : Nat → SubmitOutcome)
    (xs ys : List (List PaymentInstruction)) :
    ∀ (k : Nat) (st : LoopState),
      processBatches outcomes (xs ++ ys) k st
        = processBatches outcomes ys (k + xs.length)
            (processBatches outcomes xs k st) := by
  induction xs with
  | nil =>
      intro k st
      simp [processBatches]
  | cons x xs ih =>
      intro k st
      simp only [List.cons_append, processBatches, List.length_cons, List.append_eq]
      rw [ih]
      have : k + 1 + xs.length = k + (xs.length + 1) := by omega
      rw [this]

/-- One loop iteration appends exactly one result per instruction of the
batch, echoing recipient, amount and asset in order, whatever the outcome. -/
theorem processBatch_results_key (batch : List PaymentInstruction)
    (o : SubmitOutcome) (st : LoopState) :
    (processBatch batch o st).results.map resultKey
      = st.results.map resultKey ++ batch.map instructionKey := by
  cases o <;>
    simp only [processBatch, List.map_append, List.map_map, List.append_cancel_left_eq] <;>
    apply List.map_congr_left <;>
    intro a _ <;>
    simp [resultKey, instructionKey, successResult, failedResult]

/-- After the whole loop the result list carries one entry per instruction
of the processed batches, in batch order. -/
theorem processBatches_results_key (outcomes : Nat → SubmitOutcome)
    (bs : List (List PaymentInstruction)) :
    ∀ (k : Nat) (st : LoopState),
      (processBatches outcomes bs k st).results.map resultKey
        = st.results.map resultKey ++ bs.flatten.map instructionKey := by
  induction bs with
  | nil =>
      intro k st
      simp [processBatches]
  | cons b bs ih =>
      intro k st
      simp only [processBatches, List.flatten_cons, List.map_append]
      rw [ih, processBatch_results_key]
      simp

/-- Every result the loop ever appends keeps whatever statuses already
hold: each entry is tagged success or failed (the only two statuses). -/
theorem payStatus_cases (s : PayStatus) :
    s = PayStatus.success ∨ s = PayStatus.failed := by
  cases s
  · exact Or.inl rfl
  · exact Or.inr rfl

/-- C2: during one `submitBatch` run over valid instructions, the in-memory
sequence counter advances by exactly 1 after each batch whose submission
succeeds and is unchanged after each batch that fails or throws, regardless
of the batch's position (first conjunct, stated for every prefix of the
batch loop), and the final counter equals the initially loaded value plus
the number of successful batches (second conjunct). -/
theorem submitBatch_sequence_counter (maxOps : Int) (instrs : List PaymentInstruction)
    (init : Int) (outcomes : Nat → SubmitOutcome)
    (hv : ∀ i ∈ instrs, validatePaymentInstruction i = true) :
    (∀ k ∈ List.range ((createBatches instrs maxOps).map Batch.payments).length,
        (processBatches outcomes
            (((createBatches instrs maxOps).map Batch.payments).take (k + 1)) 0
            (initialLoopState init)).sequenceNumber
          = (processBatches outcomes
              (((createBatches instrs maxOps).map Batch.payments).take k) 0
              (initialLoopState init)).sequenceNumber
            + (if (outcomes k).isSuccess then 1 else 0)) ∧
    (submitBatch maxOps instrs init outcomes).2.toOption.map SubmitRun.finalSequence
      = some (init
          + (((List.range ((createBatches instrs maxOps).map Batch.payments).length).countP
              (fun k => (outcomes k).isSuccess) : Nat) : Int)) := by
  constructor
  · intro k hk
    have hk' : k < ((createBatches instrs maxOps).map Batch.payments).length :=
      List.mem_range.mp hk
    have htake : ((createBatches instrs maxOps).map Batch.payments).take (k + 1)
        = ((createBatches instrs maxOps).map Batch.payments).take k
          ++ [((createBatches instrs maxOps).map Batch.payments)[k]] := by
      rw [List.take_succ, List.getElem?_eq_getElem hk']
      rfl
    rw [htake, processBatches_append]
    simp only [Nat.zero_add, zero_add, List.length_take]
    have hmin : min k ((createBatches instrs maxOps).map Batch.payments).length = k :=
      Nat.min_eq_left (Nat.le_of_lt hk')
    rw [hmin]
    simp only [processBatches]
    rw [processBatch_sequenceNumber]
  · have hok : createPaymentBatches maxOps instrs
        = .ok ((createBatches instrs maxOps).map Batch.payments) :=
      createPaymentBatchesGo_ok maxOps instrs [] [] 0 hv
    simp only [submitBatch, hok, Except.toOption, Option.map]
    rw [processBatches_sequenceNumber outcomes _ 0 (initialLoopState init)]
    simp [initialLoopState]

/-- Witness for C2: three valid instructions, bound 2 (two batches): the
first batch's submission is rejected, the second succeeds, and the counter
ends at the loaded value 7 plus 1. -/
theorem submitBatch_sequence_counter_witness :
    (∀ i ∈ sampleInstructions, validatePaymentInstruction i = true) ∧
    ((∀ k ∈ List.range ((createBatches sampleInstructions 2).map Batch.payments).length,
        (processBatches sampleOutcomes
            (((createBatches sampleInstructions 2).map Batch.payments).take (k + 1)) 0
            (initialLoopState 7)).sequenceNumber
          = (processBatches sampleOutcomes
              (((createBatches sampleInstructions 2).map Batch.payments).take k) 0
              (initialLoopState 7)).sequenceNumber
            + (if (sampleOutcomes k).isSuccess then 1 else 0)) ∧
     (submitBatch 2 sampleInstructions 7 sampleOutcomes).2.toOption.map SubmitRun.finalSequence
       = some (7
           + (((List.range ((createBatches sampleInstructions 2).map Batch.payments).length).countP
               (fun k => (sampleOutcomes k).isSuccess) : Nat) : Int))) :=
  ⟨by decide, submitBatch_sequence_counter 2 sampleInstructions 7 sampleOutcomes (by decide)⟩

/-- C3: for every valid instruction list, the result of `submitBatch`
contains exactly one `PaymentResult` per input instruction, echoing
recipient, amount and asset in the input order — whatever each batch's
outcome, since processing continues past failures — and every entry is
tagged success or failed. -/
theorem submitBatch_results_complete (maxOps : Int) (instrs : List PaymentInstruction)
    (init : Int) (outcomes : Nat → SubmitOutcome)
    (hv : ∀ i ∈ instrs, validatePaymentInstruction i = true) :
    (submitBatch maxOps instrs init outcomes).2.toOption.map
        (fun run => run.results.map resultKey)
      = some (instrs.map instructionKey) ∧
    (submitBatch maxOps instrs init outcomes).2.toOption.map
        (fun run => run.results.all
          (fun r => r.status == PayStatus.success || r.status == PayStatus.failed))
      = some true := by
  have hok : createPaymentBatches maxOps instrs
      = .ok ((createBatches instrs maxOps).map Batch.payments) :=
    createPaymentBatchesGo_ok maxOps instrs [] [] 0 hv
  constructor
  · simp only [submitBatch, hok, Except.toOption, Option.map]
    rw [processBatches_results_key]
    simp only [createBatches]
    rw [createBatchesGo_join]
    simp [initialLoopState]
  · simp only [submitBatch, hok, Except.toOption, Option.map, Option.some.injEq]
    rw [List.all_eq_true]
    intro r _
    cases hs : r.status <;> simp

/-- Witness for C3: the mixed-outcome run over the three valid sample
instructions reports all three instructions, in order, each tagged. -/
theorem submitBatch_results_complete_witness :
    (∀ i ∈ sampleInstructions, validatePaymentInstruction i = true) ∧
    ((submitBatch 2 sampleInstructions 7 sampleOutcomes).2.toOption.map
        (fun run => run.results.map resultKey)
      = some (sampleInstructions.map instructionKey) ∧
     (submitBatch 2 sampleInstructions 7 sampleOutcomes).2.toOption.map
        (fun run => run.results.all
          (fun r => r.status == PayStatus.success || r.status == PayStatus.failed))
      = some true) :=
  ⟨by decide, submitBatch_results_complete 2 sampleInstructions 7 sampleOutcomes (by decide)⟩

/-- Counterexample to C4 as stated: the claim says invalid input is caught
before any ledger interaction, in particular before the signing account's
state is loaded; but `submitBatch` loads the account (stellar-service.ts
line 52) before `createPaymentBatches` validates (line 56).  On an invalid
single-instruction list the run aborts with no submissions, yet its ledger
trace already contains the account load. -/
theorem submitBatch_load_before_validation_counterexample :
    (submitBatch 100 [invalidInstruction] 0 (fun _ => SubmitOutcome.success "h")).1
        = [LedgerEvent.loadAccount] ∧
    (submitBatch 100 [invalidInstruction] 0
        (fun _ => SubmitOutcome.success "h")).2.toOption = none := by
  decide

/-- C4 (amended): when some instruction is invalid the run never proceeds
to submission — the result is an error and the ledger trace contains no
submission event — but the signing account's state has already been loaded:
the trace is exactly the account load. -/
theorem submitBatch_invalid_input_aborts (maxOps : Int)
    (instrs : List PaymentInstruction) (init : Int) (outcomes : Nat → SubmitOutcome)
    (h : ∃ i ∈ instrs, validatePaymentInstruction i = false) :
    (submitBatch maxOps instrs init outcomes).1 = [LedgerEvent.loadAccount] ∧
    (submitBatch maxOps instrs init outcomes).2.toOption = none := by
  obtain ⟨e, he⟩ := createPaymentBatchesGo_error maxOps instrs [] [] h
  have hce : createPaymentBatches maxOps instrs = .error e := he
  simp [submitBatch, hce, Except.toOption]

/-- Witness for C4: a list holding one valid and one invalid instruction
aborts after the account load, with no submissions. -/
theorem submitBatch_invalid_input_aborts_witness :
    (∃ i ∈ [sampleInstructionA, invalidInstruction],
        validatePaymentInstruction i = false) ∧
    ((submitBatch 100 [sampleInstructionA, invalidInstruction] 0 sampleOutcomes).1
        = [LedgerEvent.loadAccount] ∧
     (submitBatch 100 [sampleInstructionA, invalidInstruction] 0
         sampleOutcomes).2.toOption = none) :=
  ⟨by decide,
   submitBatch_invalid_input_aborts 100 [sampleInstructionA, invalidInstruction] 0
     sampleOutcomes (by decide)⟩

/-- Counterexample to C5 as stated: validation in `createPaymentBatches`
short-circuits instead of aggregating.  With two invalid instructions the
thrown error is the first instruction's message alone, and it is identical
to the error for the list with the second invalid instruction removed — so
no complete per-index list of failures is ever produced. -/
theorem createPaymentBatches_no_aggregation_counterexample :
    createPaymentBatches 100 [invalidInstruction, invalidInstruction2]
        = Except.error (invalidInstructionMessage invalidInstruction) ∧
    createPaymentBatches 100 [invalidInstruction]
        = Except.error (invalidInstructionMessage invalidInstruction) := by
  decide

/-- C5 (amended): `createPaymentBatches` stops at the first invalid
instruction: it throws exactly that instruction's message, and the
instructions after the first invalid one are never examined — the result
does not depend on them. -/
theorem createPaymentBatches_short_circuit (m : Int) (pre : List PaymentInstruction)
    (bad : PaymentInstruction) (rest₁ rest₂ : List PaymentInstruction)
    (hpre : ∀ i ∈ pre, validatePaymentInstruction i = true)
    (hbad : validatePaymentInstruction bad = false) :
    createPaymentBatches m (pre ++ bad :: rest₁)
        = Except.error (invalidInstructionMessage bad) ∧
    createPaymentBatches m (pre ++ bad :: rest₁)
        = createPaymentBatches m (pre ++ bad :: rest₂) := by
  have h1 := createPaymentBatchesGo_first_invalid m pre [] [] bad rest₁ hpre hbad
  have h2 := createPaymentBatchesGo_first_invalid m pre [] [] bad rest₂ hpre hbad
  exact ⟨h1, h1.trans h2.symm⟩

/-- Witness for C5: after one valid instruction, an invalid one throws its
own message, whether or not a further invalid instruction follows. -/
theorem createPaymentBatches_short_circuit_witness :
    (∀ i ∈ [sampleInstructionA], validatePaymentInstruction i = true) ∧
    validatePaymentInstruction invalidInstruction = false ∧
    (createPaymentBatches 100 ([sampleInstructionA] ++ invalidInstruction :: [invalidInstruction2])
        = Except.error (invalidInstructionMessage invalidInstruction) ∧
     createPaymentBatches 100 ([sampleInstructionA] ++ invalidInstruction :: [invalidInstruction2])
        = createPaymentBatches 100 ([sampleInstructionA] ++ invalidInstruction :: [])) :=
  ⟨by decide, by decide,
   createPaymentBatches_short_circuit 100 [sampleInstructionA] invalidInstruction
     [invalidInstruction2] [] (by decide) (by decide)⟩

/-- C10: `parseCSV` never returns an empty instruction list — every input
either throws (too few lines, missing columns, a short data row, or no
non-empty data rows) or yields at least one instruction. -/
theorem parseCSV_ok_nonempty (content : String) (l : List PaymentInstruction)
    (h : parseCSV content = Except.ok l) : l ≠ [] := by
  simp only [parseCSV] at h
  split at h
  · exact Except.noConfusion h
  · split at h
    · split at h
      · exact Except.noConfusion h
      · split at h
        · exact Except.noConfusion h
        · rename_i instructions hne
          injection h with h'
          subst h'
          intro hc
          subst hc
          simp at hne
    · exact Except.noConfusion h

/-- Witness for C10: a one-row CSV parses to a singleton list. -/
theorem parseCSV_ok_nonempty_witness :
    parseCSV sampleCSV
        = Except.ok [{ address := addressA, amount := "100", asset := "XLM" }] ∧
    ([{ address := addressA, amount := "100", asset := "XLM" }]
        : List PaymentInstruction) ≠ [] :=
  ⟨by decide, parseCSV_ok_nonempty sampleCSV _ (by decide)⟩

end BatchPay
